import Mathlib

/-!
Shallow embedding of the reconciliation / job-orchestration core of the
sync repository, translated from:

* `app/services/db_repositories.py`  (`BaseRepository.find_work_units`,
  `BaseRepository.finalize_work_unit`)
* `app/services/scheduler_service.py` (`job_wrapper`)
* `app/jobs/sync_products_job.py` and `app/jobs/sync_contacts_job.py`
  (the per-unit classify/finalize loops of `run_job`)

The relational table is modelled as a `List Row`; SQL statements are
modelled as the corresponding list filters / maps; Python's in-memory
sort / groupby / next pipeline is modelled with `List.mergeSort`,
a run-grouping function and `List.find?`.
-/

/-- One version row of a synced table.  `fetchStatus = none` models SQL
NULL (the "Pending" state); statuses are the literal strings the code
writes (`"SYNCED"`, `"FAILED"`, `"SKIPPED"`, `"SUPERSEDED"`).
`groupKey = none` models a NULL grouping-key column, and `asanitoId`
is the nullable remote-id column (`__asanito_id_field__`). -/
structure Row where
  pk : String
  groupKey : Option String
  idd : Nat
  fetchStatus : Option String
  fetchMessage : Option String
  asanitoId : Option String
deriving DecidableEq, Repr

/-- `T.fetchStatus IS NULL OR T.fetchStatus = 'SKIPPED'` — the pending
predicate used both by the key-selection SQL and by the
`latest_pending_record` scan in `find_work_units`. -/
def pendingRow (r : Row) : Bool :=
  r.fetchStatus == none || r.fetchStatus == some "SKIPPED"

/-- The placeholder remote-id values `('', '0', '1')` of
`find_work_units`. -/
def isSentinel (s : String) : Bool :=
  s == "" || s == "0" || s == "1"

/-- `r.get(field) and str(r.get(field)) not in ('', '0', '1')`:
the row carries a truthy, non-sentinel remote id. -/
def goodAsanitoId (r : Row) : Bool :=
  match r.asanitoId with
  | some s => !(s == "") && !(isSentinel s)
  | none => false

/-- `next((r.get(f) for r in group_records if ...), None)` — the first
non-sentinel remote id found in the group, in group order. -/
def findAsanitoId (group : List Row) : Option String :=
  match group.find? goodAsanitoId with
  | some r => r.asanitoId
  | none => none

/-- The ephemeral work-unit dictionary built by `find_work_units`. -/
structure WorkUnit where
  action : String
  asanito_id : Option String
  new_data_row : Row
  all_pks_in_group : List String
deriving DecidableEq, Repr

/-- Lexicographic code-point comparison of char lists: Python's `<`
on strings, spelled out structurally. -/
def charsLt : List Char → List Char → Bool
  | [], [] => false
  | [], _ :: _ => true
  | _ :: _, [] => false
  | c :: cs, d :: ds =>
    if c < d then true
    else if d < c then false
    else charsLt cs ds

/-- Python string `<` (lexicographic by code point). -/
def strLt (a b : String) : Bool := charsLt a.data b.data

/-- Python sort key `(r.get(grouping_key) or '', -(r.get('idd') or 0))`:
rows are ordered by grouping key ascending then `idd` descending
(lexicographically). -/
def rowLE (a b : Row) : Bool :=
  strLt (a.groupKey.getD "") (b.groupKey.getD "") ||
    (a.groupKey.getD "" == b.groupKey.getD "" &&
      decide (-(a.idd : Int) ≤ -(b.idd : Int)))

theorem length_dropWhile_le (p : α → Bool) (l : List α) :
    (l.dropWhile p).length ≤ l.length := by
  induction l with
  | nil => simp
  | cons x xs ih =>
    by_cases h : p x
    · simp [List.dropWhile_cons, h]; omega
    · simp [List.dropWhile_cons, h]

/-- `itertools.groupby(all_relevant_records, key=...)`: maximal
consecutive runs of rows sharing the same grouping-key value, paired
with that value. -/
def groupRuns : List Row → List (Option String × List Row)
  | [] => []
  | r :: rs =>
    (r.groupKey, r :: rs.takeWhile (fun x => x.groupKey == r.groupKey)) ::
      groupRuns (rs.dropWhile (fun x => x.groupKey == r.groupKey))
termination_by l => l.length
decreasing_by
  simp only [List.length_cons]
  exact Nat.lt_succ_of_le (length_dropWhile_le _ _)

/-- The per-group body of the work-unit loop in `find_work_units`:
`if key is None: continue`, pick `latest_pending_record` (or log and
skip the group), collect `all_pks_in_group`, scan for
`asanito_id_found`, and derive the action. -/
def mkWorkUnit (key : Option String) (group : List Row) : Option WorkUnit :=
  match key with
  | none => none
  | some _ =>
    match group.find? pendingRow with
    | none => none
    | some rep =>
      let aid := findAsanitoId group
      some { action := if aid.isSome then "UPDATE" else "CREATE"
             asanito_id := aid
             new_data_row := rep
             all_pks_in_group := group.map (fun r => r.pk) }

/-- Python `str.isdigit()`: non-empty and all decimal digits. -/
def strIsNat (s : String) : Bool :=
  !s.data.isEmpty && s.data.all (fun c => c.isDigit)

/-- Python `int(s)` on a digit string: decimal value. -/
def strToNat (s : String) : Nat :=
  s.data.foldl (fun n c => n * 10 + (c.toNat - 48)) 0

/-- `if min_idd_filter_str and min_idd_filter_str.isdigit():` — the
MinimumIddFilter mapping value is used only when it is a digit string. -/
def parseMinIdd (s : Option String) : Option Nat :=
  match s with
  | some str => if strIsNat str then some (strToNat str) else none
  | none => none

/-- `batch_size = limit if limit else 200` (Python truthiness: a limit
of 0 falls back to the 200 default). -/
def effBatchSize (limit : Option Nat) : Nat :=
  match limit with
  | some n => if n ≠ 0 then n else 200
  | none => 200

/-- Watermark clause `idd >= :min_idd` (absent when no filter is set). -/
def iddPasses (w : Option Nat) (r : Row) : Bool :=
  match w with
  | some v => decide (v ≤ r.idd)
  | none => true

/-- The `query_for_keys` row condition: the outer row `T1` passes the
optional `T1.idd >= :min_idd` filter and its group has a pending row
(`EXISTS` subquery on `T2`).  A key qualifies when some row of the
table realizes `T1` and some row realizes `T2` (SQL `NULL = NULL` is
not true, so NULL-key rows never qualify). -/
def qualifiesKey (table : List Row) (w : Option Nat) (k : String) : Bool :=
  (table.any (fun t1 => t1.groupKey == some k && iddPasses w t1)) &&
  (table.any (fun t2 => t2.groupKey == some k && pendingRow t2))

/-- `SELECT DISTINCT TOP batch_size T1.[key] ... ORDER BY T1.[key]`:
the distinct qualifying keys, in ascending order, capped to the batch. -/
def selectedKeys (table : List Row) (w : Option Nat) (batch : Nat) : List String :=
  ((((table.filterMap (fun r => r.groupKey)).dedup).filter
      (qualifiesKey table w)).mergeSort (fun a b => decide (a ≤ b))).take batch

/-- The second, set-based fetch: all rows whose grouping key is in the
selected batch (`key IN (...)`; NULL keys never match) with the same
optional watermark applied. -/
def relevantRecords (table : List Row) (keys : List String) (w : Option Nat) :
    List Row :=
  table.filter (fun r =>
    (match r.groupKey with
     | some k => keys.contains k
     | none => false) && iddPasses w r)

/-- `BaseRepository.find_work_units`: select a batch of pending group
keys, fetch their rows, sort by `(groupingKey, -idd)`, group into runs
and emit one work unit per group with a pending representative. -/
def find_work_units (table : List Row) (minIddStr : Option String)
    (limit : Option Nat) : List WorkUnit :=
  let w := parseMinIdd minIddStr
  let keys := selectedKeys table w (effBatchSize limit)
  let recs := relevantRecords table keys w
  let sorted := recs.mergeSort rowLE
  (groupRuns sorted).filterMap (fun p => mkWorkUnit p.1 p.2)

/-- `final_asanito_id = asanito_id if asanito_id is not None else
work_unit.get('asanito_id')`. -/
def resolvedAsanitoId (unit : WorkUnit) (aid : Option String) : Option String :=
  match aid with
  | some v => some v
  | none => unit.asanito_id

/-- `BaseRepository.finalize_work_unit`, returning the updated table
together with the number of rows the UPDATE statement matched.
`status = "SKIPPED"` touches only the processed row's status/message;
a terminal status rewrites every row of `all_pks_in_group` via the
CASE expressions of the single UPDATE. -/
def finalize_work_unit (table : List Row) (unit : WorkUnit) (status : String)
    (aid : Option String) (message : Option String) : List Row × Nat :=
  let processedPk := unit.new_data_row.pk
  let finalId := resolvedAsanitoId unit aid
  if status = "SKIPPED" then
    (table.map (fun r =>
        if r.pk = processedPk then
          { r with fetchStatus := some status, fetchMessage := message }
        else r),
     (table.filter (fun r => r.pk == processedPk)).length)
  else if unit.all_pks_in_group.isEmpty then
    (table, 0)
  else
    (table.map (fun r =>
        if unit.all_pks_in_group.contains r.pk then
          if r.pk = processedPk then
            { r with fetchStatus := some status, fetchMessage := message,
                     asanitoId := finalId }
          else
            { r with fetchStatus := some "SUPERSEDED",
                     fetchMessage := some "Superseded by a newer entry" }
        else r),
     (table.filter (fun r => unit.all_pks_in_group.contains r.pk)).length)

/-!
Job lock / supervisor, translated from
`app/services/scheduler_service.py` (`job_wrapper`).  The
`dbo.job_config` table is a `List JobConfig`; the job body is a
function of the database state that either returns normally or raises.
-/

/-- One `dbo.job_config` row (the columns `job_wrapper` touches). -/
structure JobConfig where
  job_id : String
  name : String
  is_running : Bool
  cancellation_requested : Bool
deriving DecidableEq, Repr

/-- Outcome of executing the job body: it finishes normally or raises
an exception; in both cases it may have modified the database. -/
inductive BodyResult
  | ok (dbAfter : List JobConfig)
  | raised (dbAfter : List JobConfig)
deriving DecidableEq, Repr

/-- The database state an executed body left behind (the wrapper's
`except` clause swallows the exception before the `finally`). -/
def bodyDb : BodyResult → List JobConfig
  | .ok d => d
  | .raised d => d

/-- `UPDATE dbo.job_config SET is_running = 1, cancellation_requested
= 0 WHERE job_id = :job_id` — the lock-acquisition update. -/
def acquireLock (db : List JobConfig) (jid : String) : List JobConfig :=
  db.map (fun c =>
    if c.job_id = jid then
      { c with is_running := true, cancellation_requested := false }
    else c)

/-- `UPDATE dbo.job_config SET is_running = 0 WHERE job_id = :job_id`
— the release update in the `finally` block. -/
def releaseLock (db : List JobConfig) (jid : String) : List JobConfig :=
  db.map (fun c =>
    if c.job_id = jid then { c with is_running := false } else c)

/-- `job_wrapper(job_id, ...)`: in one transaction, abort if any row
has `is_running = 1`; otherwise acquire the lock, run the body (its
exceptions are caught and logged) and always release in `finally`.
Returns the final database and whether the body was executed. -/
def job_wrapper (db : List JobConfig) (jid : String)
    (body : List JobConfig → BodyResult) : List JobConfig × Bool :=
  match db.find? (fun c => c.is_running) with
  | some _ => (db, false)
  | none => (releaseLock (bodyDb (body (acquireLock db jid))) jid, true)

/-!
Per-unit classification in the entity sync jobs, translated from the
`try`/`except` structure of the unit loops in
`app/jobs/sync_products_job.py` and `app/jobs/sync_contacts_job.py`.
The HTTP client (`asanito_http_client.py`) never raises: timeouts and
connection failures are returned as error responses with status codes
504 / 503, and unexpected client-internal errors as status 500.
-/

/-- The standardized response dictionary of the HTTP client.
`data = some x` models a truthy dict payload whose `.get('id')` is
`x`; `data = none` models a missing / non-dict / empty payload. -/
structure ApiResponse where
  status_code : Nat
  data : Option (Option String)
  error : String
deriving DecidableEq, Repr

/-- What happened while processing one work unit inside the `try`
block: an API response was obtained, or an exception of one of the
classes the handlers distinguish was raised first. -/
inductive UnitEvent
  | response (r : ApiResponse)
  | raisedMapping (msg : String)
  | raisedConn (msg : String)
  | raisedValue (msg : String)
  | raisedOther (msg : String)
deriving DecidableEq, Repr

/-- The finalize status written for one unit of
`sync_products_job.run_job` (`none`: no `finalize_work_unit` call).
In the source: a non-2xx or id-less response raises `ValueError`;
`except MappingNotFoundError` finalizes SKIPPED;
`except (ValueError, ConnectionError)` finalizes FAILED;
`except Exception` only records the item. -/
def products_finalize_action (ev : UnitEvent) : Option String :=
  match ev with
  | .response r =>
    if r.status_code < 300 && r.data.isSome then
      match r.data with
      | some (some _) => some "SYNCED"
      | _ => some "FAILED"
    else some "FAILED"
  | .raisedMapping _ => some "SKIPPED"
  | .raisedConn _ => some "FAILED"
  | .raisedValue _ => some "FAILED"
  | .raisedOther _ => none

/-- The finalize status written for one unit of
`sync_contacts_job.run_job` (`none`: no `finalize_work_unit` call).
In the source: a 4xx response finalizes FAILED inline; any other
non-2xx (or id-less) response raises `ValueError`;
`except (MappingNotFoundError, ValueError)` finalizes SKIPPED;
`except Exception` (which is what a raw `ConnectionError` or any other
class hits) only records the item. -/
def contacts_finalize_action (ev : UnitEvent) : Option String :=
  match ev with
  | .response r =>
    if r.status_code < 300 && r.data.isSome then
      match r.data with
      | some (some _) => some "SYNCED"
      | _ => some "SKIPPED"
    else if 400 ≤ r.status_code && r.status_code < 500 then some "FAILED"
    else some "SKIPPED"
  | .raisedMapping _ => some "SKIPPED"
  | .raisedConn _ => none
  | .raisedValue _ => some "SKIPPED"
  | .raisedOther _ => none

/-- One entry of a sync run's outcome trace: a processed unit with the
finalize status written for it, or the synthetic "ALL REMAINING /
terminated by user" entry recorded when the loop stops on
cancellation. -/
inductive LoopItem
  | processed (u : WorkUnit) (finalizeStatus : Option String)
  | cancelledRemaining
deriving DecidableEq, Repr

/-- The unit loop of `sync_products_job.run_job`: before each unit the
job re-reads `JobConfig.cancellation_requested` (modelled by `cancel`
applied to the iteration index); when set it records the synthetic
skipped entry and breaks, otherwise it processes the unit and
continues whatever the outcome. -/
def productsLoop (cancel : Nat → Bool) (i : Nat)
    (units : List (WorkUnit × UnitEvent)) : List LoopItem :=
  match units with
  | [] => []
  | (u, ev) :: rest =>
    if cancel i then [LoopItem.cancelledRemaining]
    else LoopItem.processed u (products_finalize_action ev) ::
      productsLoop cancel (i + 1) rest

/-- The unit loop of `sync_contacts_job.run_job`: the source loop body
never reads `cancellation_requested`, so the probe argument is ignored
and every unit is processed in order. -/
def contactsLoop (cancel : Nat → Bool) (i : Nat)
    (units : List (WorkUnit × UnitEvent)) : List LoopItem :=
  match units with
  | [] => []
  | (u, ev) :: rest =>
    LoopItem.processed u (contacts_finalize_action ev) ::
      contactsLoop cancel (i + 1) rest

/-!  Scheduler claims. -/

/-- C3: an invocation of the supervisor's `run(jobId)` aborts without
executing the job body — leaving the whole `job_config` table, and in
particular the invoked job's own `is_running` and
`cancellation_requested` flags, unchanged — as soon as any job
descriptor of any id has `is_running = true`; otherwise the body is
executed, and the database it runs on has the invoked job's
`is_running` set and `cancellation_requested` cleared. -/
theorem run_global_exclusivity (db : List JobConfig) (jid : String)
    (body : List JobConfig → BodyResult) :
    ((∃ c ∈ db, c.is_running = true) → job_wrapper db jid body = (db, false)) ∧
    ((∀ c ∈ db, c.is_running = false) →
      (job_wrapper db jid body).2 = true ∧
      ∀ c ∈ acquireLock db jid, c.job_id = jid →
        c.is_running = true ∧ c.cancellation_requested = false) := by
  constructor
  · rintro ⟨c, hc, hrun⟩
    have hs : (db.find? (fun c => c.is_running)).isSome := by
      exact List.find?_isSome.mpr ⟨c, hc, hrun⟩
    unfold job_wrapper
    cases hf : db.find? (fun c => c.is_running) with
    | none => rw [hf] at hs; simp at hs
    | some c0 => rfl
  · intro hnone
    have hf : db.find? (fun c => c.is_running) = none := by
      apply List.find?_eq_none.mpr
      intro x hx
      simp [hnone x hx]
    constructor
    · unfold job_wrapper
      rw [hf]
    · intro c hc hcid
      unfold acquireLock at hc
      obtain ⟨c0, _, hmap⟩ := List.mem_map.mp hc
      by_cases h0 : c0.job_id = jid
      · simp only [h0, if_pos rfl] at hmap
        subst hmap
        exact ⟨rfl, rfl⟩
      · rw [if_neg h0] at hmap
        subst hmap
        exact absurd hcid h0

/-- C3 witness: with job "a" already running, invoking job "b" leaves
the table untouched and does not execute the body. -/
theorem run_global_exclusivity_witness :
    job_wrapper [⟨"a", "A", true, false⟩] "b" (fun d => BodyResult.ok d) =
      ([⟨"a", "A", true, false⟩], false) :=
  (run_global_exclusivity [⟨"a", "A", true, false⟩] "b"
      (fun d => BodyResult.ok d)).1
    ⟨⟨"a", "A", true, false⟩, by simp, rfl⟩

/-- C8: whenever `run(jobId)` acquired the lock (the body was
executed), the invoked job's `is_running` flag is false in the final
database state, whether the body returned normally or raised — the
release is the `finally` step of `job_wrapper`. -/
theorem run_releases_lock_on_all_paths (db : List JobConfig) (jid : String)
    (body : List JobConfig → BodyResult)
    (hacq : (job_wrapper db jid body).2 = true) :
    ∀ c ∈ (job_wrapper db jid body).1, c.job_id = jid → c.is_running = false := by
  intro c hc hcid
  unfold job_wrapper at hacq hc
  cases hf : db.find? (fun c => c.is_running) with
  | some c0 => rw [hf] at hacq; simp at hacq
  | none =>
    rw [hf] at hc
    simp only at hc
    unfold releaseLock at hc
    obtain ⟨c0, _, hmap⟩ := List.mem_map.mp hc
    by_cases h0 : c0.job_id = jid
    · rw [if_pos h0] at hmap
      subst hmap
      rfl
    · rw [if_neg h0] at hmap
      subst hmap
      exact absurd hcid h0

/-- C8 witness: a raising body on a one-job table still ends with
`is_running = false` for that job. -/
theorem run_releases_lock_on_all_paths_witness :
    (⟨"b", "B", false, false⟩ : JobConfig).is_running = false :=
  run_releases_lock_on_all_paths [⟨"b", "B", false, true⟩] "b"
    (fun d => BodyResult.raised d) rfl ⟨"b", "B", false, false⟩
    (List.mem_singleton.mpr rfl) rfl

/-!  Finalizer claims. -/

/-- The row-update function applied by the terminal branch of
`finalize_work_unit` (the CASE expressions of its UPDATE statement). -/
def terminalUpdateRow (unit : WorkUnit) (status : String) (aid : Option String)
    (message : Option String) (r : Row) : Row :=
  if unit.all_pks_in_group.contains r.pk then
    if r.pk = unit.new_data_row.pk then
      { r with fetchStatus := some status, fetchMessage := message,
               asanitoId := resolvedAsanitoId unit aid }
    else
      { r with fetchStatus := some "SUPERSEDED",
               fetchMessage := some "Superseded by a newer entry" }
  else r

theorem finalize_terminal_eq_map (table : List Row) (unit : WorkUnit)
    (status : String) (aid : Option String) (message : Option String)
    (hstat : status ≠ "SKIPPED") (hne : unit.all_pks_in_group ≠ []) :
    finalize_work_unit table unit status aid message =
      (table.map (terminalUpdateRow unit status aid message),
       (table.filter (fun r => unit.all_pks_in_group.contains r.pk)).length) := by
  unfold finalize_work_unit
  rw [if_neg hstat, if_neg (by simpa using hne)]
  rfl

/-- C2: a terminal `finalize` over a unit with non-empty
`allKeysInGroup` touches exactly the rows whose primary key is in
`allKeysInGroup`: the representative row receives the new status, the
message and the resolved remote id — the explicit argument when one is
given, else the id the unit already carried — while every other row of
the group receives status SUPERSEDED and the standard message with its
remote id untouched, and rows outside the group are unchanged. -/
theorem finalize_terminal_effect (table : List Row) (unit : WorkUnit)
    (status : String) (aid : Option String) (message : Option String)
    (hstat : status = "SYNCED" ∨ status = "FAILED")
    (hne : unit.all_pks_in_group ≠ []) :
    (finalize_work_unit table unit status aid message).1.length = table.length ∧
    ∀ i, i < table.length → ∃ r r2, table[i]? = some r ∧
      (finalize_work_unit table unit status aid message).1[i]? = some r2 ∧
      (unit.all_pks_in_group.contains r.pk = false → r2 = r) ∧
      (unit.all_pks_in_group.contains r.pk = true →
        r.pk = unit.new_data_row.pk →
        r2.fetchStatus = some status ∧ r2.fetchMessage = message ∧
        r2.asanitoId = (match aid with
                        | some v => some v
                        | none => unit.asanito_id) ∧
        r2.pk = r.pk ∧ r2.groupKey = r.groupKey ∧ r2.idd = r.idd) ∧
      (unit.all_pks_in_group.contains r.pk = true →
        r.pk ≠ unit.new_data_row.pk →
        r2.fetchStatus = some "SUPERSEDED" ∧
        r2.fetchMessage = some "Superseded by a newer entry" ∧
        r2.asanitoId = r.asanitoId ∧
        r2.pk = r.pk ∧ r2.groupKey = r.groupKey ∧ r2.idd = r.idd) := by
  have hsk : status ≠ "SKIPPED" := by
    rcases hstat with h | h <;> subst h <;> decide
  rw [finalize_terminal_eq_map table unit status aid message hsk hne]
  refine ⟨by simp, ?_⟩
  intro i hi
  refine ⟨table[i], terminalUpdateRow unit status aid message table[i],
    by simp [hi], ?_, ?_, ?_, ?_⟩
  · simp [List.getElem?_map, List.getElem?_eq_getElem hi]
  · intro hout
    unfold terminalUpdateRow
    rw [hout]
    simp
  · intro hin hrep
    unfold terminalUpdateRow
    rw [hin, if_pos rfl, if_pos hrep]
    unfold resolvedAsanitoId
    cases aid <;> simp
  · intro hin hother
    unfold terminalUpdateRow
    rw [hin, if_pos rfl, if_neg hother]
    simp

/-- The two rows of the spec's worked scenario: representative `a`
(idd 10, pending) and older row `b` (idd 7, superseded). -/
def specRowA : Row :=
  { pk := "a", groupKey := some "G1", idd := 10, fetchStatus := none,
    fetchMessage := none, asanitoId := none }

def specRowB : Row :=
  { pk := "b", groupKey := some "G1", idd := 7,
    fetchStatus := some "SUPERSEDED", fetchMessage := none,
    asanitoId := none }

def specTable : List Row := [specRowA, specRowB]

/-- The work unit `find_work_units` emits for `specTable`. -/
def specUnit : WorkUnit :=
  { action := "CREATE", asanito_id := none, new_data_row := specRowA,
    all_pks_in_group := ["a", "b"] }

/-- C2 witness: the spec's scenario, finalized SYNCED with remote id
"42". -/
theorem finalize_terminal_effect_witness :
    (finalize_work_unit specTable specUnit "SYNCED" (some "42") none).1.length =
      specTable.length :=
  (finalize_terminal_effect specTable specUnit "SYNCED" (some "42") none
    (Or.inl rfl) (by decide)).1

/-- A key known to be a member of a key list is `contains`-true. -/
theorem contains_of_mem {l : List String} {a : String} (h : a ∈ l) :
    l.contains a = true :=
  List.contains_iff_exists_mem_beq.mpr ⟨a, h, by simp⟩

/-- C1: after a terminal `finalize` (`SYNCED` or `FAILED`) over a work
unit whose representative key is one of the group's keys and occurs on
exactly one row of the table, exactly one row among the group's rows
(those keyed in `allKeysInGroup`) is non-SUPERSEDED: the
representative row carries the terminal status and every other row of
the group carries SUPERSEDED. -/
theorem finalize_terminal_converges (table : List Row) (unit : WorkUnit)
    (status : String) (aid : Option String) (message : Option String)
    (hstat : status = "SYNCED" ∨ status = "FAILED")
    (hmem : unit.new_data_row.pk ∈ unit.all_pks_in_group)
    (huniq : (table.filter
        (fun r => r.pk == unit.new_data_row.pk)).length = 1) :
    (((finalize_work_unit table unit status aid message).1.filter
        (fun r => unit.all_pks_in_group.contains r.pk &&
          !(r.fetchStatus == some "SUPERSEDED"))).length = 1) ∧
    (∀ r ∈ (finalize_work_unit table unit status aid message).1,
      unit.all_pks_in_group.contains r.pk = true →
      r.pk = unit.new_data_row.pk → r.fetchStatus = some status) ∧
    (∀ r ∈ (finalize_work_unit table unit status aid message).1,
      unit.all_pks_in_group.contains r.pk = true →
      r.pk ≠ unit.new_data_row.pk → r.fetchStatus = some "SUPERSEDED") := by
  have hsk : status ≠ "SKIPPED" := by
    rcases hstat with h | h <;> subst h <;> decide
  have hsup : status ≠ "SUPERSEDED" := by
    rcases hstat with h | h <;> subst h <;> decide
  have hne : unit.all_pks_in_group ≠ [] := by
    intro h
    rw [h] at hmem
    exact absurd hmem (List.not_mem_nil _)
  rw [finalize_terminal_eq_map table unit status aid message hsk hne]
  simp only
  refine ⟨?_, ?_, ?_⟩
  · rw [List.filter_map]
    rw [List.length_map]
    rw [List.filter_congr (l := table)
        (q := fun r => r.pk == unit.new_data_row.pk) ?_, huniq]
    intro r _
    simp only [Function.comp]
    unfold terminalUpdateRow
    by_cases hc : unit.all_pks_in_group.contains r.pk
    · rw [if_pos hc]
      by_cases hp : r.pk = unit.new_data_row.pk
      · rw [if_pos hp]
        simp [hp, hsup, hmem]
      · rw [if_neg hp]
        simp [hp, hc]
    · rw [if_neg hc]
      have hni : r.pk ∉ unit.all_pks_in_group := fun h => hc (contains_of_mem h)
      have hp : r.pk ≠ unit.new_data_row.pk := by
        intro h
        rw [h] at hni
        exact hni hmem
      simp [hni, hp]
  · intro r hr hc hp
    obtain ⟨r0, _, hmap⟩ := List.mem_map.mp hr
    subst hmap
    unfold terminalUpdateRow at hc hp ⊢
    by_cases hc0 : unit.all_pks_in_group.contains r0.pk
    · rw [if_pos hc0] at hc hp ⊢
      by_cases hp0 : r0.pk = unit.new_data_row.pk
      · rw [if_pos hp0]
      · rw [if_neg hp0] at hc hp ⊢
        exact absurd hp hp0
    · rw [if_neg hc0] at hc hp
      have hh : r0.pk = unit.new_data_row.pk := hp
      rw [hh] at hc0
      exact absurd (contains_of_mem hmem) hc0
  · intro r hr hc hp
    obtain ⟨r0, _, hmap⟩ := List.mem_map.mp hr
    subst hmap
    unfold terminalUpdateRow at hc hp ⊢
    by_cases hc0 : unit.all_pks_in_group.contains r0.pk
    · rw [if_pos hc0] at hc hp ⊢
      by_cases hp0 : r0.pk = unit.new_data_row.pk
      · rw [if_pos hp0] at hc hp ⊢
        exact absurd hp0 hp
      · rw [if_neg hp0]
    · rw [if_neg hc0] at hc
      exact absurd hc hc0

/-- C1 witness: the spec scenario converges to exactly one
non-SUPERSEDED row after `finalize(SYNCED, "42")`. -/
theorem finalize_terminal_converges_witness :
    ((finalize_work_unit specTable specUnit "SYNCED" (some "42") none).1.filter
      (fun r => specUnit.all_pks_in_group.contains r.pk &&
        !(r.fetchStatus == some "SUPERSEDED"))).length = 1 :=
  (finalize_terminal_converges specTable specUnit "SYNCED" (some "42") none
    (Or.inl rfl) (by decide) (by decide)).1

/-- C9: `finalize(unit, SKIPPED, message)` matches exactly one row —
the representative (its key occurring on exactly one table row) — and
changes only that row's `fetchStatus`/`fetchMessage`; every other row
is unchanged, and every other field of the representative, including
its remote id even when a remote-id argument is supplied, keeps its
value. -/
theorem finalize_skipped_frame (table : List Row) (unit : WorkUnit)
    (aid : Option String) (message : Option String)
    (huniq : (table.filter
        (fun r => r.pk == unit.new_data_row.pk)).length = 1) :
    (finalize_work_unit table unit "SKIPPED" aid message).2 = 1 ∧
    (finalize_work_unit table unit "SKIPPED" aid message).1.length =
      table.length ∧
    ∀ i, i < table.length → ∃ r r2, table[i]? = some r ∧
      (finalize_work_unit table unit "SKIPPED" aid message).1[i]? = some r2 ∧
      (r.pk ≠ unit.new_data_row.pk → r2 = r) ∧
      (r.pk = unit.new_data_row.pk →
        r2.fetchStatus = some "SKIPPED" ∧ r2.fetchMessage = message ∧
        r2.asanitoId = r.asanitoId ∧ r2.pk = r.pk ∧
        r2.groupKey = r.groupKey ∧ r2.idd = r.idd) := by
  unfold finalize_work_unit
  rw [if_pos rfl]
  simp only
  refine ⟨huniq, by simp, ?_⟩
  intro i hi
  refine ⟨table[i],
    (if table[i].pk = unit.new_data_row.pk then
      { table[i] with fetchStatus := some "SKIPPED", fetchMessage := message }
     else table[i]),
    by simp [hi], ?_, ?_, ?_⟩
  · simp [List.getElem?_map, List.getElem?_eq_getElem hi]
  · intro hne
    rw [if_neg hne]
  · intro heq
    rw [if_pos heq]
    simp

/-- C9 witness: skipping the spec scenario's unit with a message and a
supplied remote id matches exactly one row. -/
theorem finalize_skipped_frame_witness :
    (finalize_work_unit specTable specUnit "SKIPPED" (some "42")
      (some "deferred")).2 = 1 :=
  (finalize_skipped_frame specTable specUnit (some "42") (some "deferred")
    (by decide)).1

/-!  Sync-loop claims. -/

theorem contactsLoop_eq_map (cancel : Nat → Bool) (i : Nat)
    (units : List (WorkUnit × UnitEvent)) :
    contactsLoop cancel i units =
      units.map (fun p => LoopItem.processed p.1 (contacts_finalize_action p.2)) := by
  induction units generalizing i with
  | nil => rfl
  | cons u rest ih =>
    cases u with
    | mk u1 u2 => simp [contactsLoop, ih]

theorem productsLoop_length_of_no_cancel (i : Nat)
    (units : List (WorkUnit × UnitEvent)) :
    (productsLoop (fun _ => false) i units).length = units.length := by
  induction units generalizing i with
  | nil => rfl
  | cons u rest ih =>
    cases u with
    | mk u1 u2 => simp [productsLoop, ih]

theorem productsLoop_cancel_at (cancel : Nat → Bool) (i k : Nat)
    (units : List (WorkUnit × UnitEvent)) (hk : k < units.length)
    (hbefore : ∀ j, j < k → cancel (i + j) = false)
    (hcancel : cancel (i + k) = true) :
    productsLoop cancel i units =
      ((units.take k).map
        (fun p => LoopItem.processed p.1 (products_finalize_action p.2))) ++
        [LoopItem.cancelledRemaining] := by
  induction units generalizing i k with
  | nil => simp at hk
  | cons u rest ih =>
    cases u with
    | mk u1 u2 =>
      cases k with
      | zero =>
        simp only [Nat.add_zero] at hcancel
        simp [productsLoop, hcancel]
      | succ k2 =>
        have h0 : cancel i = false := by
          have h00 := hbefore 0 (Nat.succ_pos k2)
          simpa using h00
        have hk2 : k2 < rest.length := by
          simp at hk
          omega
        have hb2 : ∀ j, j < k2 → cancel (i + 1 + j) = false := by
          intro j hj
          have hbj := hbefore (j + 1) (Nat.succ_lt_succ hj)
          have heq : i + 1 + j = i + (j + 1) := by omega
          rw [heq]
          exact hbj
        have hc2 : cancel (i + 1 + k2) = true := by
          have heq : i + 1 + k2 = i + (k2 + 1) := by omega
          rw [heq]
          exact hcancel
        have ihh := ih (i + 1) k2 hk2 hb2 hc2
        simp [productsLoop, h0, List.take_succ_cons, ihh]

/-- C6 counterexample: the HTTP client reports a network failure as an
error response with status 503; on such a response (likewise any 5xx)
the products sync loop finalizes the unit FAILED, not SKIPPED, and an
unclassified exception leads to no finalize call at all in either
loop. -/
theorem transient_errors_not_skipped_cex :
    products_finalize_action (UnitEvent.response
      { status_code := 503, data := none,
        error := "A network connection error occurred." }) = some "FAILED" ∧
    (some "FAILED" : Option String) ≠ some "SKIPPED" ∧
    products_finalize_action (UnitEvent.raisedOther "boom") = none ∧
    contacts_finalize_action (UnitEvent.raisedOther "boom") = none := by
  refine ⟨rfl, by decide, rfl, rfl⟩

/-- C6 (amended): on a network error or 5xx — surfaced by the HTTP
client as an error response with status ≥ 500 — the contacts loop
finalizes the unit SKIPPED but the products loop finalizes it FAILED;
an unclassified exception is caught at the unit boundary in both loops
without any finalize call (the row keeps its previous, still-pending
status); and in both loops no per-unit outcome aborts the remaining
units (absent cancellation, every unit yields a trace entry). -/
theorem transient_error_classification (r : ApiResponse)
    (hr : 500 ≤ r.status_code) (m : String)
    (units : List (WorkUnit × UnitEvent)) :
    contacts_finalize_action (UnitEvent.response r) = some "SKIPPED" ∧
    products_finalize_action (UnitEvent.response r) = some "FAILED" ∧
    contacts_finalize_action (UnitEvent.raisedOther m) = none ∧
    products_finalize_action (UnitEvent.raisedOther m) = none ∧
    (contactsLoop (fun _ => false) 0 units).length = units.length ∧
    (productsLoop (fun _ => false) 0 units).length = units.length := by
  have h3 : decide (r.status_code < 300) = false := by
    simp
    omega
  have h5 : decide (r.status_code < 500) = false := by
    simp
    omega
  refine ⟨?_, ?_, rfl, rfl, ?_, ?_⟩
  · simp [contacts_finalize_action, h3, h5]
  · simp [products_finalize_action, h3]
  · rw [contactsLoop_eq_map]
    simp
  · exact productsLoop_length_of_no_cancel 0 units

/-- C6 witness: at a concrete 503 network-error response the two
classifications diverge as the amended claim states. -/
theorem transient_error_classification_witness :
    contacts_finalize_action (UnitEvent.response
      { status_code := 503, data := none,
        error := "A network connection error occurred." }) = some "SKIPPED" :=
  (transient_error_classification
    { status_code := 503, data := none,
      error := "A network connection error occurred." }
    (by decide) "boom" []).1

/-- C7 counterexample: the contacts loop never reads the cancellation
flag: with cancellation requested before the first unit it still
processes the unit and records no synthetic cancelled entry. -/
theorem contacts_loop_ignores_cancellation_cex :
    contactsLoop (fun _ => true) 0
        [(specUnit, UnitEvent.raisedMapping "missing mapping")] =
      [LoopItem.processed specUnit (some "SKIPPED")] ∧
    LoopItem.cancelledRemaining ∉
      contactsLoop (fun _ => true) 0
        [(specUnit, UnitEvent.raisedMapping "missing mapping")] := by
  refine ⟨rfl, by decide⟩

/-- C7 (amended): the products (and service-invoice) sync loop
re-reads the cancellation flag before each unit: if the probe is first
true at unit index `k`, exactly the first `k` units are processed and
the loop stops with the synthetic "ALL REMAINING" skipped entry; the
contacts (likewise receipts and store-invoice) loop never reads the
probe and processes every unit in order regardless of it. -/
theorem loop_cancellation_behavior (cancel : Nat → Bool)
    (units : List (WorkUnit × UnitEvent)) (k : Nat)
    (hk : k < units.length)
    (hbefore : ∀ j, j < k → cancel j = false)
    (hcancel : cancel k = true) :
    productsLoop cancel 0 units =
      ((units.take k).map
        (fun p => LoopItem.processed p.1 (products_finalize_action p.2))) ++
        [LoopItem.cancelledRemaining] ∧
    contactsLoop cancel 0 units =
      units.map
        (fun p => LoopItem.processed p.1 (contacts_finalize_action p.2)) := by
  constructor
  · apply productsLoop_cancel_at cancel 0 k units hk
    · intro j hj
      simpa using hbefore j hj
    · simpa using hcancel
  · exact contactsLoop_eq_map cancel 0 units

/-- C7 witness: cancellation arriving before the second of two units
stops the products loop after one processed unit. -/
theorem loop_cancellation_behavior_witness :
    productsLoop (fun n => n == 1) 0
        [(specUnit, UnitEvent.raisedMapping "m1"),
         (specUnit, UnitEvent.raisedMapping "m2")] =
      [LoopItem.processed specUnit (some "SKIPPED"),
       LoopItem.cancelledRemaining] := by
  have h := (loop_cancellation_behavior (fun n => n == 1)
    [(specUnit, UnitEvent.raisedMapping "m1"),
     (specUnit, UnitEvent.raisedMapping "m2")] 1
    (by decide) (by decide) (by decide)).1
  simpa using h

/-!  Discovery claims: order and grouping machinery. -/

theorem charsLt_irrefl (l : List Char) : charsLt l l = false := by
  induction l with
  | nil => rfl
  | cons c cs ih => simp [charsLt, ih]

theorem charsLt_trans : ∀ (a b c : List Char), charsLt a b = true →
    charsLt b c = true → charsLt a c = true
  | [], [], _, h1, _ => by simp [charsLt] at h1
  | [], _ :: _, [], _, h2 => by simp [charsLt] at h2
  | [], _ :: _, _ :: _, _, _ => rfl
  | _ :: _, [], _, h1, _ => by simp [charsLt] at h1
  | _ :: _, _ :: _, [], _, h2 => by simp [charsLt] at h2
  | x :: xs, y :: ys, z :: zs, h1, h2 => by
    simp only [charsLt] at h1 h2 ⊢
    rcases lt_trichotomy x y with hxy | hxy | hxy
    · rcases lt_trichotomy y z with hyz | hyz | hyz
      · rw [if_pos (lt_trans hxy hyz)]
      · rw [if_pos (hyz ▸ hxy)]
      · rw [if_neg (lt_asymm hyz), if_pos hyz] at h2
        simp at h2
    · subst hxy
      rcases lt_trichotomy x z with hxz | hxz | hxz
      · rw [if_pos hxz]
      · subst hxz
        rw [if_neg (lt_irrefl x), if_neg (lt_irrefl x)] at h1 h2 ⊢
        exact charsLt_trans xs ys zs h1 h2
      · rw [if_neg (lt_asymm hxz), if_pos hxz] at h2
        simp at h2
    · rw [if_neg (lt_asymm hxy), if_pos hxy] at h1
      simp at h1

theorem charsLt_tri : ∀ (a b : List Char),
    charsLt a b = true ∨ a = b ∨ charsLt b a = true
  | [], [] => Or.inr (Or.inl rfl)
  | [], _ :: _ => Or.inl rfl
  | _ :: _, [] => Or.inr (Or.inr rfl)
  | x :: xs, y :: ys => by
    simp only [charsLt]
    rcases lt_trichotomy x y with h | h | h
    · rw [if_pos h]
      exact Or.inl rfl
    · subst h
      simp only [if_neg (lt_irrefl x)]
      rcases charsLt_tri xs ys with h2 | h2 | h2
      · exact Or.inl h2
      · exact Or.inr (Or.inl (by rw [h2]))
      · exact Or.inr (Or.inr h2)
    · simp only [if_pos h, if_neg (lt_asymm h)]
      exact Or.inr (Or.inr trivial)

theorem strLt_irrefl (s : String) : strLt s s = false := charsLt_irrefl _

theorem strLt_trans (a b c : String) (h1 : strLt a b = true)
    (h2 : strLt b c = true) : strLt a c = true :=
  charsLt_trans _ _ _ h1 h2

theorem strLt_tri (a b : String) :
    strLt a b = true ∨ a = b ∨ strLt b a = true := by
  rcases charsLt_tri a.data b.data with h | h | h
  · exact Or.inl h
  · refine Or.inr (Or.inl ?_)
    cases a
    cases b
    exact congrArg String.mk (by simpa using h)
  · exact Or.inr (Or.inr h)

theorem rowLE_iff (a b : Row) : rowLE a b = true ↔
    (strLt (a.groupKey.getD "") (b.groupKey.getD "") = true ∨
     (a.groupKey.getD "" = b.groupKey.getD "" ∧
       -(a.idd : Int) ≤ -(b.idd : Int))) := by
  simp [rowLE]

theorem rowLE_total (a b : Row) : (rowLE a b || rowLE b a) = true := by
  rw [Bool.or_eq_true, rowLE_iff, rowLE_iff]
  rcases strLt_tri (a.groupKey.getD "") (b.groupKey.getD "") with h | h | h
  · exact Or.inl (Or.inl h)
  · rcases le_total (-(a.idd : Int)) (-(b.idd : Int)) with h2 | h2
    · exact Or.inl (Or.inr ⟨h, h2⟩)
    · exact Or.inr (Or.inr ⟨h.symm, h2⟩)
  · exact Or.inr (Or.inl h)

theorem rowLE_trans (a b c : Row) (h1 : rowLE a b = true)
    (h2 : rowLE b c = true) : rowLE a c = true := by
  rw [rowLE_iff] at h1 h2 ⊢
  rcases h1 with h1 | ⟨h1e, h1i⟩ <;> rcases h2 with h2 | ⟨h2e, h2i⟩
  · exact Or.inl (strLt_trans _ _ _ h1 h2)
  · exact Or.inl (h2e ▸ h1)
  · exact Or.inl (h1e ▸ h2)
  · exact Or.inr ⟨h1e.trans h2e, le_trans h1i h2i⟩

theorem rowLE_key_cases (a b : Row) (h : rowLE a b = true) :
    strLt (a.groupKey.getD "") (b.groupKey.getD "") = true ∨
      a.groupKey.getD "" = b.groupKey.getD "" := by
  rw [rowLE_iff] at h
  rcases h with h | ⟨h, _⟩
  · exact Or.inl h
  · exact Or.inr h

theorem groupRuns_sub (l : List Row) (p : Option String × List Row)
    (hp : p ∈ groupRuns l) : ∀ x ∈ p.2, x ∈ l := by
  induction l using groupRuns.induct with
  | case1 => simp [groupRuns] at hp
  | case2 r rs ih =>
    rw [groupRuns] at hp
    rcases List.mem_cons.mp hp with h | h
    · subst h
      intro x hx
      rcases List.mem_cons.mp hx with h2 | h2
      · exact h2 ▸ List.mem_cons_self r rs
      · exact List.mem_cons_of_mem r
          ((List.takeWhile_sublist _).mem h2)
    · intro x hx
      exact List.mem_cons_of_mem r
        ((List.dropWhile_sublist _).mem (ih h x hx))

theorem groupRuns_key (l : List Row) (p : Option String × List Row)
    (hp : p ∈ groupRuns l) : ∀ x ∈ p.2, x.groupKey = p.1 := by
  induction l using groupRuns.induct with
  | case1 => simp [groupRuns] at hp
  | case2 r rs ih =>
    rw [groupRuns] at hp
    rcases List.mem_cons.mp hp with h | h
    · subst h
      intro x hx
      rcases List.mem_cons.mp hx with h2 | h2
      · rw [h2]
      · have := List.mem_takeWhile_imp h2
        simpa using this
    · exact ih h

theorem groupRuns_pairwise (l : List Row) (R : Row → Row → Prop)
    (hl : l.Pairwise R) (p : Option String × List Row)
    (hp : p ∈ groupRuns l) : p.2.Pairwise R := by
  induction l using groupRuns.induct with
  | case1 => simp [groupRuns] at hp
  | case2 r rs ih =>
    rw [groupRuns] at hp
    rcases List.mem_cons.mp hp with h | h
    · subst h
      exact hl.sublist ((List.takeWhile_sublist _).cons₂ r)
    · exact ih (hl.sublist ((List.dropWhile_sublist _).cons r)) h

theorem groupRuns_ne_nil (l : List Row) (p : Option String × List Row)
    (hp : p ∈ groupRuns l) : p.2 ≠ [] := by
  induction l using groupRuns.induct with
  | case1 => simp [groupRuns] at hp
  | case2 r rs ih =>
    rw [groupRuns] at hp
    rcases List.mem_cons.mp hp with h | h
    · subst h
      simp
    · exact ih h

/-- In a `rowLE`-sorted list headed by `r` whose rows all have non-NULL
grouping keys, the rows dropped past the head's run never carry the
head's grouping key again (runs are complete). -/
theorem dropWhile_no_key (r : Row) (rs : List Row)
    (hpair : (r :: rs).Pairwise (fun a b => rowLE a b = true))
    (hsome : ∀ x ∈ r :: rs, x.groupKey.isSome = true) :
    ∀ d ∈ rs.dropWhile (fun x => x.groupKey == r.groupKey),
      d.groupKey ≠ r.groupKey := by
  intro d hd
  cases hD : rs.dropWhile (fun x => x.groupKey == r.groupKey) with
  | nil =>
    rw [hD] at hd
    exact absurd hd (List.not_mem_nil d)
  | cons h D2 =>
    rw [hD] at hd
    have hne0 : rs.dropWhile (fun x => x.groupKey == r.groupKey) ≠ [] := by
      rw [hD]
      simp
    have hpredh : (h.groupKey == r.groupKey) = false := by
      have hh := List.head_dropWhile_not
        (fun x => x.groupKey == r.groupKey) rs hne0
      have hhead : (rs.dropWhile (fun x => x.groupKey == r.groupKey)).head hne0 = h := by
        simp [hD]
      rw [hhead] at hh
      exact hh
    have hhne : h.groupKey ≠ r.groupKey := by
      intro he
      rw [he] at hpredh
      simp at hpredh
    have hhmem : h ∈ rs :=
      (List.dropWhile_sublist _).mem (by
        rw [hD]
        exact List.mem_cons_self _ _)
    rcases List.mem_cons.mp hd with rfl | hd2
    · exact hhne
    · intro he
      have hrh : rowLE r h = true :=
        (List.pairwise_cons.mp hpair).1 h hhmem
      have hDpair : (h :: D2).Pairwise (fun a b => rowLE a b = true) := by
        have hp2 := ((List.pairwise_cons.mp hpair).2).sublist
          (List.dropWhile_sublist (fun x => x.groupKey == r.groupKey))
        rw [hD] at hp2
        exact hp2
      have hhd : rowLE h d = true := (List.pairwise_cons.mp hDpair).1 d hd2
      have k1 := rowLE_key_cases _ _ hrh
      have k2 := rowLE_key_cases _ _ hhd
      have k3 : d.groupKey.getD "" = r.groupKey.getD "" := by rw [he]
      have k4 : h.groupKey.getD "" = r.groupKey.getD "" := by
        rcases k1 with k1 | k1
        · rcases k2 with k2 | k2
          · have k5 := strLt_trans _ _ _ k1 k2
            rw [k3, strLt_irrefl] at k5
            simp at k5
          · rw [k2, k3] at k1
            rw [strLt_irrefl] at k1
            simp at k1
        · exact k1.symm
      have hsh := hsome h (List.mem_cons_of_mem r hhmem)
      have hsr := hsome r (List.mem_cons_self _ _)
      obtain ⟨sh, hsh2⟩ := Option.isSome_iff_exists.mp hsh
      obtain ⟨sr, hsr2⟩ := Option.isSome_iff_exists.mp hsr
      rw [hsh2, hsr2] at k4
      simp only [Option.getD_some] at k4
      rw [hsh2, hsr2] at hhne
      exact hhne (by rw [k4])

/-- In a `rowLE`-sorted list of rows with non-NULL grouping keys, each
run produced by the grouping pass contains every list element bearing
the run's key. -/
theorem groupRuns_complete (l : List Row)
    (hpair : l.Pairwise (fun a b => rowLE a b = true))
    (hsome : ∀ x ∈ l, x.groupKey.isSome = true)
    (p : Option String × List Row) (hp : p ∈ groupRuns l)
    (x : Row) (hx : x ∈ l) (hkey : x.groupKey = p.1) : x ∈ p.2 := by
  induction l using groupRuns.induct with
  | case1 => simp [groupRuns] at hp
  | case2 r rs ih =>
    rw [groupRuns] at hp
    rcases List.mem_cons.mp hp with h | h
    · subst h
      simp only at hkey
      rcases List.mem_cons.mp hx with rfl | hx2
      · exact List.mem_cons_self _ _
      · have hsplit :
            rs.takeWhile (fun y => y.groupKey == r.groupKey) ++
              rs.dropWhile (fun y => y.groupKey == r.groupKey) = rs :=
          List.takeWhile_append_dropWhile _ rs
        have hmem2 : x ∈ rs.takeWhile (fun y => y.groupKey == r.groupKey) ∨
            x ∈ rs.dropWhile (fun y => y.groupKey == r.groupKey) := by
          rw [← hsplit] at hx2
          exact List.mem_append.mp hx2
        rcases hmem2 with hT | hD
        · exact List.mem_cons_of_mem r hT
        · exact absurd hkey (dropWhile_no_key r rs hpair hsome x hD)
    · have hpairD :
          (rs.dropWhile (fun y => y.groupKey == r.groupKey)).Pairwise
            (fun a b => rowLE a b = true) :=
        ((List.pairwise_cons.mp hpair).2).sublist (List.dropWhile_sublist _)
      have hsomeD : ∀ y ∈ rs.dropWhile (fun y => y.groupKey == r.groupKey),
          y.groupKey.isSome = true := by
        intro y hy
        exact hsome y (List.mem_cons_of_mem r ((List.dropWhile_sublist _).mem hy))
      have hxD : x ∈ rs.dropWhile (fun y => y.groupKey == r.groupKey) := by
        obtain ⟨y, hy⟩ := List.exists_mem_of_ne_nil p.2 (groupRuns_ne_nil _ p h)
        have hyD : y ∈ rs.dropWhile (fun z => z.groupKey == r.groupKey) :=
          groupRuns_sub _ p h y hy
        have hykey : y.groupKey = p.1 := groupRuns_key _ p h y hy
        have hyne : y.groupKey ≠ r.groupKey :=
          dropWhile_no_key r rs hpair hsome y hyD
        have hxne : x.groupKey ≠ r.groupKey := by
          rw [hkey, ← hykey]
          exact hyne
        rcases List.mem_cons.mp hx with rfl | hx2
        · exact absurd rfl hxne
        · have hsplit :
              rs.takeWhile (fun z => z.groupKey == r.groupKey) ++
                rs.dropWhile (fun z => z.groupKey == r.groupKey) = rs :=
            List.takeWhile_append_dropWhile _ rs
          have hmem2 :
              x ∈ rs.takeWhile (fun z => z.groupKey == r.groupKey) ∨
              x ∈ rs.dropWhile (fun z => z.groupKey == r.groupKey) := by
            rw [← hsplit] at hx2
            exact List.mem_append.mp hx2
          rcases hmem2 with hT | hD
          · have := List.mem_takeWhile_imp hT
            simp only [beq_iff_eq] at this
            exact absurd this hxne
          · exact hD
      exact ih hpairD hsomeD h hxD

/-- Within a `rowLE`-sorted single-key run, the first pending row
(`next(...)` over the descending-idd order) has the maximal `idd`
among the run's pending rows. -/
theorem find_first_pending_max (g : List Row) (k : String)
    (hpair : g.Pairwise (fun a b => rowLE a b = true))
    (hkeys : ∀ x ∈ g, x.groupKey = some k)
    (rep : Row) (hrep : g.find? pendingRow = some rep) :
    ∀ x ∈ g, pendingRow x = true → x.idd ≤ rep.idd := by
  induction g with
  | nil => simp at hrep
  | cons a g2 ih =>
    by_cases ha : pendingRow a
    · rw [List.find?_cons_of_pos _ ha] at hrep
      have hax : a = rep := by injection hrep
      subst hax
      intro x hx hpx
      rcases List.mem_cons.mp hx with rfl | hx2
      · exact le_refl _
      · have hle : rowLE a x = true := (List.pairwise_cons.mp hpair).1 x hx2
        rw [rowLE_iff] at hle
        rcases hle with h | ⟨_, hi⟩
        · have h1 := hkeys a (List.mem_cons_self _ _)
          have h2 := hkeys x (List.mem_cons_of_mem _ hx2)
          rw [h1, h2] at h
          simp only [Option.getD_some] at h
          rw [strLt_irrefl] at h
          simp at h
        · have hcast : (x.idd : Int) ≤ (a.idd : Int) := by
            omega
          exact_mod_cast hcast
    · rw [List.find?_cons_of_neg _ ha] at hrep
      intro x hx hpx
      rcases List.mem_cons.mp hx with rfl | hx2
      · exact absurd hpx ha
      · exact ih (List.pairwise_cons.mp hpair).2
          (fun y hy => hkeys y (List.mem_cons_of_mem _ hy)) hrep x hx2 hpx

/-- The `all_relevant_records` intermediate of `find_work_units`: the
second fetch for the selected batch of keys. -/
def allRelevantRecords (table : List Row) (minIddStr : Option String)
    (limit : Option Nat) : List Row :=
  relevantRecords table
    (selectedKeys table (parseMinIdd minIddStr) (effBatchSize limit))
    (parseMinIdd minIddStr)

theorem find_work_units_eq (table : List Row) (ws : Option String)
    (lim : Option Nat) :
    find_work_units table ws lim =
      (groupRuns ((allRelevantRecords table ws lim).mergeSort rowLE)).filterMap
        (fun p => mkWorkUnit p.1 p.2) := rfl

theorem mem_allRelevantRecords (table : List Row) (ws : Option String)
    (lim : Option Nat) (x : Row) (hx : x ∈ allRelevantRecords table ws lim) :
    x ∈ table ∧ iddPasses (parseMinIdd ws) x = true ∧
      x.groupKey.isSome = true := by
  unfold allRelevantRecords relevantRecords at hx
  have hm := List.mem_filter.mp hx
  have h2 := hm.2
  rw [Bool.and_eq_true] at h2
  refine ⟨hm.1, h2.2, ?_⟩
  cases hk : x.groupKey with
  | none =>
    rw [hk] at h2
    simp at h2
  | some s => rfl

theorem sorted_allRelevant (table : List Row) (ws : Option String)
    (lim : Option Nat) :
    ((allRelevantRecords table ws lim).mergeSort rowLE).Pairwise
      (fun a b => rowLE a b = true) :=
  List.sorted_mergeSort
    (fun a b c h1 h2 => rowLE_trans a b c h1 h2)
    (fun a b => rowLE_total a b)
    (allRelevantRecords table ws lim)

/-- Structural decomposition of any emitted work unit: it comes from a
sorted, complete, single-key run of the fetched records, with its
fields exactly as the per-group loop computes them. -/
theorem find_work_units_spec (table : List Row) (ws : Option String)
    (lim : Option Nat) (u : WorkUnit) (hu : u ∈ find_work_units table ws lim) :
    ∃ k g,
      g.find? pendingRow = some u.new_data_row ∧
      u.asanito_id = findAsanitoId g ∧
      u.action = (if (findAsanitoId g).isSome then "UPDATE" else "CREATE") ∧
      u.all_pks_in_group = g.map (fun r => r.pk) ∧
      g.Pairwise (fun a b => rowLE a b = true) ∧
      (∀ x ∈ g, x.groupKey = some k) ∧
      (∀ x, x ∈ g ↔ x ∈ allRelevantRecords table ws lim ∧
        x.groupKey = some k) := by
  rw [find_work_units_eq] at hu
  obtain ⟨p, hp, hmk⟩ := List.mem_filterMap.mp hu
  obtain ⟨kOpt, g⟩ := p
  cases kOpt with
  | none => simp [mkWorkUnit] at hmk
  | some k =>
    have hsortpair := sorted_allRelevant table ws lim
    have hsome : ∀ x ∈ (allRelevantRecords table ws lim).mergeSort rowLE,
        x.groupKey.isSome = true := by
      intro x hx
      exact (mem_allRelevantRecords table ws lim x
        (List.mem_mergeSort.mp hx)).2.2
    have hgpair : g.Pairwise (fun a b => rowLE a b = true) :=
      groupRuns_pairwise _ _ hsortpair (some k, g) hp
    have hgkeys : ∀ x ∈ g, x.groupKey = some k := by
      intro x hx
      exact groupRuns_key _ (some k, g) hp x hx
    have hiff : ∀ x, x ∈ g ↔ x ∈ allRelevantRecords table ws lim ∧
        x.groupKey = some k := by
      intro x
      constructor
      · intro hx
        refine ⟨List.mem_mergeSort.mp (groupRuns_sub _ (some k, g) hp x hx), ?_⟩
        exact hgkeys x hx
      · rintro ⟨hx1, hx2⟩
        exact groupRuns_complete _ hsortpair hsome (some k, g) hp x
          (List.mem_mergeSort.mpr hx1) hx2
    unfold mkWorkUnit at hmk
    cases hf : g.find? pendingRow with
    | none =>
      rw [hf] at hmk
      simp at hmk
    | some rep =>
      rw [hf] at hmk
      simp only [Option.some.injEq] at hmk
      subst hmk
      exact ⟨k, g, hf, rfl, rfl, rfl, hgpair, hgkeys, hiff⟩

/-- Evaluation helper: with no watermark, a single qualifying key `k`
whose fetch returns the whole table, and an already-sorted table,
`find_work_units` reduces to grouping the table itself. -/
theorem find_work_units_concrete (table : List Row) (k : String)
    (hd : ((table.filterMap (fun r => r.groupKey)).dedup).filter
      (qualifiesKey table (parseMinIdd none)) = [k])
    (hrel : relevantRecords table [k] (parseMinIdd none) = table)
    (hsorted : table.Pairwise (fun a b => rowLE a b = true)) :
    find_work_units table none none =
      (groupRuns table).filterMap (fun p => mkWorkUnit p.1 p.2) := by
  rw [find_work_units_eq]
  have hkeys : selectedKeys table (parseMinIdd none) (effBatchSize none) = [k] := by
    unfold selectedKeys
    rw [hd, List.mergeSort_of_sorted (List.pairwise_singleton _ _)]
    rfl
  have hrecs : allRelevantRecords table none none = table := by
    unfold allRelevantRecords
    rw [hkeys]
    exact hrel
  rw [hrecs, List.mergeSort_of_sorted hsorted]

/-- Evaluation helper: a table that is a single maximal run groups to
one chunk. -/
theorem groupRuns_single_run (r : Row) (rs : List Row)
    (h : rs.takeWhile (fun x => x.groupKey == r.groupKey) = rs) :
    groupRuns (r :: rs) = [(r.groupKey, r :: rs)] := by
  have hsplit := List.takeWhile_append_dropWhile
    (fun x => x.groupKey == r.groupKey) rs
  rw [h] at hsplit
  have h2 : rs.dropWhile (fun x => x.groupKey == r.groupKey) = [] := by
    have h3 : rs ++ rs.dropWhile (fun x => x.groupKey == r.groupKey) =
        rs ++ [] := by
      rw [List.append_nil]
      exact hsplit
    exact List.append_cancel_left h3
  rw [groupRuns, h, h2, groupRuns]

theorem find_work_units_specTable :
    find_work_units specTable none none = [specUnit] := by
  rw [find_work_units_concrete specTable "G1" (by decide) (by decide) (by decide)]
  rw [show (specTable : List Row) = specRowA :: [specRowB] from rfl]
  rw [groupRuns_single_run specRowA [specRowB] (by decide)]
  decide

/-- C4: every work unit emitted by `find_work_units` has a pending
(Pending-or-Skipped) representative drawn from the fetched records
whose `idd` is maximal among the pending rows of its group; and a
selected group with no pending row yields no work unit at all. -/
theorem discover_representative (table : List Row) (ws : Option String)
    (lim : Option Nat) :
    (∀ u ∈ find_work_units table ws lim,
      pendingRow u.new_data_row = true ∧
      u.new_data_row ∈ allRelevantRecords table ws lim ∧
      ∀ x ∈ allRelevantRecords table ws lim,
        x.groupKey = u.new_data_row.groupKey → pendingRow x = true →
          x.idd ≤ u.new_data_row.idd) ∧
    (∀ k : String,
      (∀ x ∈ allRelevantRecords table ws lim,
        x.groupKey = some k → pendingRow x = false) →
      ∀ u ∈ find_work_units table ws lim,
        u.new_data_row.groupKey ≠ some k) := by
  constructor
  · intro u hu
    obtain ⟨k, g, hf, _, _, _, hgpair, hgkeys, hiff⟩ :=
      find_work_units_spec table ws lim u hu
    have hrepg : u.new_data_row ∈ g := List.mem_of_find?_eq_some hf
    have hrepk : u.new_data_row.groupKey = some k := hgkeys _ hrepg
    refine ⟨List.find?_some hf, ((hiff _).mp hrepg).1, ?_⟩
    intro x hx hxk hpx
    have hxg : x ∈ g := (hiff x).mpr ⟨hx, by rw [hxk, hrepk]⟩
    exact find_first_pending_max g k hgpair hgkeys _ hf x hxg hpx
  · intro k hnone u hu hk
    obtain ⟨k2, g, hf, _, _, _, hgpair, hgkeys, hiff⟩ :=
      find_work_units_spec table ws lim u hu
    have hrepg : u.new_data_row ∈ g := List.mem_of_find?_eq_some hf
    have hmem := (hiff _).mp hrepg
    have hp : pendingRow u.new_data_row = true := List.find?_some hf
    have hfalse := hnone _ hmem.1 hk
    rw [hp] at hfalse
    simp at hfalse

/-- C4 witness: in the spec scenario the emitted unit's representative
is the pending row with the highest `idd`. -/
theorem discover_representative_witness :
    pendingRow specUnit.new_data_row = true ∧
    specUnit.new_data_row.idd = 10 :=
  ⟨((discover_representative specTable none none).1 specUnit
      (by rw [find_work_units_specTable]; exact List.mem_singleton.mpr rfl)).1,
   rfl⟩

/-- Group with remote-id values `[null, null, "5"]` (newest row first
after sorting; the valid id sits on the oldest row). -/
def updRowA : Row :=
  { pk := "a", groupKey := some "G", idd := 3, fetchStatus := none,
    fetchMessage := none, asanitoId := none }

def updRowB : Row :=
  { pk := "b", groupKey := some "G", idd := 2,
    fetchStatus := some "SUPERSEDED", fetchMessage := none,
    asanitoId := none }

def updRowC : Row :=
  { pk := "c", groupKey := some "G", idd := 1,
    fetchStatus := some "SUPERSEDED", fetchMessage := none,
    asanitoId := some "5" }

def updateExampleTable : List Row := [updRowA, updRowB, updRowC]

/-- Group with remote-id values `[null, "0", "1"]` (all sentinels). -/
def senRowA : Row :=
  { pk := "a", groupKey := some "G", idd := 3, fetchStatus := none,
    fetchMessage := none, asanitoId := none }

def senRowB : Row :=
  { pk := "b", groupKey := some "G", idd := 2,
    fetchStatus := some "SUPERSEDED", fetchMessage := none,
    asanitoId := some "0" }

def senRowC : Row :=
  { pk := "c", groupKey := some "G", idd := 1,
    fetchStatus := some "SUPERSEDED", fetchMessage := none,
    asanitoId := some "1" }

def sentinelExampleTable : List Row := [senRowA, senRowB, senRowC]

def updateExampleUnit : WorkUnit :=
  { action := "UPDATE", asanito_id := some "5", new_data_row := updRowA,
    all_pks_in_group := ["a", "b", "c"] }

def sentinelExampleUnit : WorkUnit :=
  { action := "CREATE", asanito_id := none, new_data_row := senRowA,
    all_pks_in_group := ["a", "b", "c"] }

theorem fwu_updateExample :
    find_work_units updateExampleTable none none = [updateExampleUnit] := by
  rw [find_work_units_concrete updateExampleTable "G"
    (by decide) (by decide) (by decide)]
  rw [show (updateExampleTable : List Row) = updRowA :: [updRowB, updRowC]
    from rfl]
  rw [groupRuns_single_run updRowA [updRowB, updRowC] (by decide)]
  decide

theorem fwu_sentinelExample :
    find_work_units sentinelExampleTable none none = [sentinelExampleUnit] := by
  rw [find_work_units_concrete sentinelExampleTable "G"
    (by decide) (by decide) (by decide)]
  rw [show (sentinelExampleTable : List Row) = senRowA :: [senRowB, senRowC]
    from rfl]
  rw [groupRuns_single_run senRowA [senRowB, senRowC] (by decide)]
  decide

/-- C5: an emitted unit's action is UPDATE — carrying a found id —
exactly when some fetched row of its group bears a non-null,
non-sentinel remote id (sentinels: "", "0", "1"), and otherwise
CREATE; in particular the `[null, null, "5"]` group yields
`UPDATE`/`"5"` and the all-sentinel `[null, "0", "1"]` group yields
`CREATE`. -/
theorem discover_action_iff (table : List Row) (ws : Option String)
    (lim : Option Nat) :
    (∀ u ∈ find_work_units table ws lim,
      (u.action = "UPDATE" ↔
        ∃ x ∈ allRelevantRecords table ws lim,
          x.groupKey = u.new_data_row.groupKey ∧ goodAsanitoId x = true) ∧
      (u.action = "UPDATE" ∨ u.action = "CREATE") ∧
      (u.action = "UPDATE" ↔ u.asanito_id.isSome = true) ∧
      (∀ s, u.asanito_id = some s →
        ∃ x ∈ allRelevantRecords table ws lim,
          x.groupKey = u.new_data_row.groupKey ∧ x.asanitoId = some s ∧
            goodAsanitoId x = true)) ∧
    (find_work_units updateExampleTable none none).map
        (fun v => (v.action, v.asanito_id)) = [("UPDATE", some "5")] ∧
    (find_work_units sentinelExampleTable none none).map
        (fun v => (v.action, v.asanito_id)) = [("CREATE", none)] := by
  refine ⟨?_, by rw [fwu_updateExample]; decide,
    by rw [fwu_sentinelExample]; decide⟩
  intro u hu
  obtain ⟨k, g, hf, haid, hact, _, hgpair, hgkeys, hiff⟩ :=
    find_work_units_spec table ws lim u hu
  have hrepg : u.new_data_row ∈ g := List.mem_of_find?_eq_some hf
  have hrepk : u.new_data_row.groupKey = some k := hgkeys _ hrepg
  have hgood : (findAsanitoId g).isSome = true ↔
      ∃ x ∈ g, goodAsanitoId x = true := by
    unfold findAsanitoId
    cases hfa : g.find? goodAsanitoId with
    | none =>
      rw [List.find?_eq_none] at hfa
      constructor
      · intro h
        simp at h
      · rintro ⟨x, hx, hgx⟩
        exact absurd hgx (by simpa using hfa x hx)
    | some x =>
      have hgx := List.find?_some hfa
      have hxg := List.mem_of_find?_eq_some hfa
      have hx : x.asanitoId.isSome = true := by
        unfold goodAsanitoId at hgx
        cases hxa : x.asanitoId with
        | none => rw [hxa] at hgx; simp at hgx
        | some s => rfl
      constructor
      · intro _
        exact ⟨x, hxg, hgx⟩
      · intro _
        exact hx
  constructor
  · rw [hact]
    constructor
    · intro hup
      have hsome : (findAsanitoId g).isSome = true := by
        by_cases hi : (findAsanitoId g).isSome
        · exact hi
        · rw [if_neg (by simpa using hi)] at hup
          simp at hup
      obtain ⟨x, hxg, hgx⟩ := hgood.mp hsome
      refine ⟨x, ((hiff x).mp hxg).1, ?_, hgx⟩
      rw [hrepk]
      exact hgkeys x hxg
    · rintro ⟨x, hx, hxk, hgx⟩
      have hxg : x ∈ g := (hiff x).mpr ⟨hx, by rw [hxk, hrepk]⟩
      have : (findAsanitoId g).isSome = true := hgood.mpr ⟨x, hxg, hgx⟩
      rw [if_pos this]
  · refine ⟨?_, ?_, ?_⟩
    · rw [hact]
      by_cases hi : (findAsanitoId g).isSome
      · rw [if_pos hi]
        exact Or.inl rfl
      · rw [if_neg (by simpa using hi)]
        exact Or.inr rfl
    · rw [hact, haid]
      by_cases hi : (findAsanitoId g).isSome
      · rw [if_pos hi]
        simp [hi]
      · rw [if_neg (by simpa using hi)]
        constructor
        · intro h
          simp at h
        · intro h
          exact absurd h (by simpa using hi)
    · intro s hs
      rw [haid] at hs
      unfold findAsanitoId at hs
      cases hfa : g.find? goodAsanitoId with
      | none =>
        rw [hfa] at hs
        simp at hs
      | some x =>
        rw [hfa] at hs
        have hgx := List.find?_some hfa
        have hxg := List.mem_of_find?_eq_some hfa
        refine ⟨x, ((hiff x).mp hxg).1, ?_, hs, hgx⟩
        rw [hrepk]
        exact hgkeys x hxg

/-- C5 witness: the `[null, null, "5"]` group's unit has a matching
good-id row establishing its UPDATE action. -/
theorem discover_action_iff_witness :
    updateExampleUnit.action = "UPDATE" ∨ updateExampleUnit.action = "CREATE" :=
  ((discover_action_iff updateExampleTable none none).1 updateExampleUnit
    (by rw [fwu_updateExample]; exact List.mem_singleton.mpr rfl)).2.1

/-- C10: when a minimum-sequence watermark is configured, discovery
emits no work unit for any group all of whose Pending-or-Skipped rows
sit below the watermark, even though the group is otherwise pending. -/
theorem discover_watermark (table : List Row) (ws : Option String)
    (lim : Option Nat) (wm : Nat) (hw : parseMinIdd ws = some wm)
    (k : String)
    (hbelow : ∀ x ∈ table, x.groupKey = some k → pendingRow x = true →
      x.idd < wm) :
    (find_work_units table ws lim).filter
      (fun u => u.new_data_row.groupKey == some k) = [] := by
  rw [List.filter_eq_nil_iff]
  intro u hu
  simp only [beq_iff_eq]
  intro hk
  obtain ⟨k2, g, hf, _, _, _, hgpair, hgkeys, hiff⟩ :=
    find_work_units_spec table ws lim u hu
  have hrepg : u.new_data_row ∈ g := List.mem_of_find?_eq_some hf
  have hpend : pendingRow u.new_data_row = true := List.find?_some hf
  have hmem := (hiff _).mp hrepg
  have hrow := mem_allRelevantRecords table ws lim _ hmem.1
  have hpass := hrow.2.1
  rw [hw] at hpass
  unfold iddPasses at hpass
  simp only [decide_eq_true_eq] at hpass
  have hlt := hbelow _ hrow.1 hk hpend
  omega

/-- The watermark scenario: the group's only pending row has `idd` 50,
below the configured watermark of 100. -/
def wmRowA : Row :=
  { pk := "a", groupKey := some "W", idd := 50, fetchStatus := none,
    fetchMessage := none, asanitoId := none }

def wmRowB : Row :=
  { pk := "b", groupKey := some "W", idd := 120,
    fetchStatus := some "SYNCED", fetchMessage := none, asanitoId := none }

def wmTable : List Row := [wmRowA, wmRowB]

/-- C10 witness: with watermark "100" the pending-at-50 group yields
no unit. -/
theorem discover_watermark_witness :
    (find_work_units wmTable (some "100") none).filter
      (fun u => u.new_data_row.groupKey == some "W") = [] :=
  discover_watermark wmTable (some "100") none 100 (by decide) "W" (by decide)
